import Mathlib

/-!
Verification development for a small retrieval-augmented-generation (RAG)
pipeline (Python sources: `src/document_processor.py`, `src/qdrant_index.py`,
`src/endpoint.py`, `src/simple_rag.py`, plus entry points `main.py`/`app.py`).

The Python code is shallowly embedded:
* exceptions become an explicit `PyExc` sum threaded through `Except` or an
  `Option PyExc × state` pair (mutation survives a raised exception, so the
  state is returned even on failure);
* `SystemExit` is distinguished from ordinary exceptions because Python's
  `except Exception` does not catch it (`SystemExit` derives from
  `BaseException`, not `Exception`);
* an embedding is modelled as its flattened row of rationals: the real
  embedder returns a 1×D numpy array, whose `.flatten().tolist()` is that row
  and whose `.shape[1]` is the row's length;
* the filesystem is a function from a directory name to its listing — a list
  of (filename, UTF-8 content) pairs in `os.listdir` order;
* the HTTP network is a function from the request payload to an abstract
  outcome (transport failure, or a status code with an optionally
  JSON-parseable body);
* floats (temperature, top_p, similarity scores) are modelled as rationals.
-/

/-- The Python exception values that the embedded code can raise.
`systemExit` models `SystemExit`, which derives from `BaseException` and is
therefore NOT caught by `except Exception`; every other constructor models an
`Exception` subclass. -/
inductive PyExc where
  | valueError (msg : String)
  | keyError (msg : String)
  | osError (msg : String)
  | indexError (msg : String)
  | systemExit (msg : String)
  deriving DecidableEq, Repr

/-- Whether `except Exception` catches this exception: everything except
`SystemExit` (Python's `SystemExit` subclasses `BaseException` only). -/
def PyExc.catchableByExcept : PyExc → Bool
  | .systemExit _ => false
  | _ => true

/-- Whether `except ValueError` catches this exception. -/
def PyExc.isValueError : PyExc → Bool
  | .valueError _ => true
  | _ => false

/-- A document embedding, modelled as the flattened row of the 1×D array the
embedder returns: `flatten().tolist()` is the list itself and `shape[1]` is
its length. -/
abbrev Emb := List ℚ

/-- The filesystem: a directory name maps to its listing, a list of
(filename, content) pairs in `os.listdir` order. -/
abbrev FS := String → List (String × String)

/-- Python's `str.endswith`, on the underlying character list (structural, so
concrete instances evaluate inside the kernel). -/
def strEndsWith (s suffix : String) : Bool :=
  List.isSuffixOf suffix.data s.data

/-- `open(os.path.join(dir, name)).read()`, as a partial lookup: the first
listing entry with the given filename. -/
def readFile? (fs : FS) (dir name : String) : Option String :=
  ((fs dir).find? (fun f => f.1 = name)).map Prod.snd

/-- State of `DocumentProcessor` (src/document_processor.py): the documents
directory, the embedder (`self.embedder.embed_text`, modelled as a fallible
function from file content to an embedding), and the two accumulated parallel
lists. -/
structure DocumentProcessor where
  documents_dir : String
  embedder : String → Except PyExc Emb
  document_titles : List String
  document_embeddings : List Emb

/-- `DocumentProcessor.__init__`: stores the directory and embedder and starts
with empty title/embedding lists. -/
def DocumentProcessor.init (documents_dir : String)
    (embedder : String → Except PyExc Emb) : DocumentProcessor :=
  { documents_dir := documents_dir, embedder := embedder,
    document_titles := [], document_embeddings := [] }

/-- The `for filename in os.listdir(...)` loop of
`DocumentProcessor.process_documents`: `.txt` files are read and embedded, and
the embedding and the filename are appended to the processor's lists; a raised
exception aborts the loop but keeps the mutations made so far (the state is
returned alongside the exception). -/
def processFiles : List (String × String) → DocumentProcessor →
    Option PyExc × DocumentProcessor
  | [], s => (none, s)
  | (name, content) :: rest, s =>
    if strEndsWith name ".txt" then
      match s.embedder content with
      | .error e => (some e, s)
      | .ok emb =>
        processFiles rest
          { s with document_embeddings := s.document_embeddings ++ [emb],
                   document_titles := s.document_titles ++ [name] }
    else processFiles rest s

/-- `DocumentProcessor.process_documents`: run the loop over the listing of
`self.documents_dir`; afterwards, if `self.document_embeddings` is empty raise
`ValueError`.  The outer `except Exception: raise` re-raises unchanged. -/
def processDocuments (fs : FS) (s : DocumentProcessor) :
    Option PyExc × DocumentProcessor :=
  match processFiles (fs s.documents_dir) s with
  | (some e, s') => (some e, s')
  | (none, s') =>
    if s'.document_embeddings.isEmpty then
      (some (.valueError
        "No document embeddings were created. Please check your documents directory."),
       s')
    else (none, s')

/-- A Qdrant `PointStruct`: numeric id, flattened vector, and the
`{"title": ...}` payload. -/
structure Point where
  id : ℕ
  vec : List ℚ
  title : String
  deriving DecidableEq, Repr

/-- The in-memory Qdrant collection held by `QdrantIndex`
(src/qdrant_index.py): the configured vector dimension and the stored
points. -/
structure QdrantIndex where
  dimension : ℕ
  collection : List Point
  deriving DecidableEq, Repr

/-- `QdrantIndex.__init__`: a fresh collection for vectors of exactly
`dimension` components (any same-named prior collection is deleted first, so
the collection starts empty). -/
def QdrantIndex.create (dimension : ℕ) : QdrantIndex :=
  { dimension := dimension, collection := [] }

/-- The list comprehension of `QdrantIndex.add_embeddings`:
`PointStruct(id=i, vector=embedding.flatten().tolist(), payload={"title": title})
for i, (embedding, title) in enumerate(zip(embeddings, titles))`, with the
running index starting at `i`. -/
def enumPoints : ℕ → List (Emb × String) → List Point
  | _, [] => []
  | i, (e, t) :: rest => ⟨i, e, t⟩ :: enumPoints (i + 1) rest

/-- Modelled from the spec: one step of the external in-memory Qdrant client's
`upsert` (the `qdrant_client` library is not part of this repository).  A
point replaces any stored point with the same id, otherwise it is appended. -/
def upsertOne (ps : List Point) (p : Point) : List Point :=
  if ps.any (fun q => q.id = p.id) then
    ps.map (fun q => if q.id = p.id then p else q)
  else ps ++ [p]

/-- `QdrantIndex.add_embeddings`: build the enumerated points and upsert them
into the collection.  Modelled from the spec for the external client's part:
the in-memory client rejects vectors whose dimension differs from the
collection's configured dimension (the spec's `IndexError` on mismatch);
the raised exception is re-raised by the wrapper's `except`. -/
def QdrantIndex.add_embeddings (idx : QdrantIndex) (embeddings : List Emb)
    (titles : List String) : Except PyExc QdrantIndex :=
  let points := enumPoints 0 (embeddings.zip titles)
  if points.all (fun p => p.vec.length = idx.dimension) then
    .ok { idx with collection := points.foldl upsertOne idx.collection }
  else .error (.indexError "vector dimension mismatch")

/-- Dot product of two rational vectors (extra components of the longer vector
are ignored; all vectors compared have equal dimension in practice). -/
def dot : List ℚ → List ℚ → ℚ
  | a :: u, b :: v => a * b + dot u v
  | _, _ => 0

/-- Squared Euclidean norm. -/
def normSq (v : List ℚ) : ℚ := dot v v

/-- Modelled from the spec: a sorting key equivalent to cosine similarity.
For a fixed nonzero query `u` and a stored vector `v` with `normSq v > 0`,
cosine similarity is `dot u v / (sqrt (normSq u) * sqrt (normSq v))`; since
`x ↦ x * |x|` is strictly increasing and `normSq u` is a positive constant,
`v ↦ dot u v * |dot u v| / normSq v` is a strictly increasing transform of it,
so ranking by `simKey` is ranking by cosine similarity — without leaving ℚ.
(For the degenerate zero vector, ℚ division by zero makes the key 0.) -/
def simKey (u v : List ℚ) : ℚ := dot u v * |dot u v| / normSq v

/-- Modelled from the spec: the result order of the external in-memory Qdrant
client's cosine search — descending similarity, ties broken by lower point id
first ("insertion order"). -/
def searchRel (u : List ℚ) (p q : Point) : Prop :=
  simKey u q.vec < simKey u p.vec ∨
    (simKey u p.vec = simKey u q.vec ∧ p.id ≤ q.id)

instance (u : List ℚ) : DecidableRel (searchRel u) := fun p q => by
  unfold searchRel; exact inferInstance

instance (u : List ℚ) : IsTotal Point (searchRel u) where
  total p q := by
    rcases lt_trichotomy (simKey u p.vec) (simKey u q.vec) with h | h | h
    · exact Or.inr (Or.inl h)
    · rcases Nat.le_total p.id q.id with hid | hid
      · exact Or.inl (Or.inr ⟨h, hid⟩)
      · exact Or.inr (Or.inr ⟨h.symm, hid⟩)
    · exact Or.inl (Or.inl h)

instance (u : List ℚ) : IsTrans Point (searchRel u) where
  trans p q s hpq hqs := by
    rcases hpq with h1 | ⟨h1, h1'⟩ <;> rcases hqs with h2 | ⟨h2, h2'⟩
    · exact Or.inl (h2.trans h1)
    · exact Or.inl (h2 ▸ h1)
    · exact Or.inl (h1 ▸ h2)
    · exact Or.inr ⟨h1.trans h2, h1'.trans h2'⟩

/-- Modelled from the spec: the external in-memory Qdrant client's
`client.search(collection_name, query_vector, limit)` — all stored points
ranked by descending cosine similarity to the query (ties: lower id first),
truncated to `limit`. -/
def clientSearch (idx : QdrantIndex) (query : List ℚ) (limit : ℕ) :
    List Point :=
  (idx.collection.insertionSort (searchRel query)).take limit

/-- `QdrantIndex.search`: run the client search and return the `"title"`
payload of each hit.  Modelled from the spec for the external client's part:
a query whose dimension differs from the collection's raises (the spec's
`IndexError`), re-raised by the wrapper's `except`. -/
def QdrantIndex.search (idx : QdrantIndex) (query : List ℚ) (top_n : ℕ) :
    Except PyExc (List String) :=
  if query.length = idx.dimension then
    .ok ((clientSearch idx query top_n).map Point.title)
  else .error (.indexError "query dimension mismatch")

/-- One chat message of the completion-request payload. -/
structure Message where
  role : String
  content : String
  deriving DecidableEq, Repr

/-- The JSON body sent to the completion endpoint
(`SimpleRAG._create_payload`). -/
structure Payload where
  model : String
  messages : List Message
  temperature : ℚ
  top_p : ℚ
  max_tokens : ℕ
  stream : Bool
  deriving DecidableEq, Repr

/-- A JSON value, as far as the embedded code inspects one:
`response["message"]["content"]`. -/
inductive JVal where
  | str (s : String)
  | obj (fields : List (String × JVal))
  | null
  deriving Repr

/-- Dictionary field access `j[k]`, partial: `none` models the `KeyError`
(missing key) or `TypeError` (non-dict) that Python would raise — both are
`Exception` subclasses, so both flow into the same `except Exception` handler
downstream. -/
def JVal.field? : JVal → String → Option JVal
  | .obj fields, k => (fields.find? (fun f => f.1 = k)).map Prod.snd
  | _, _ => none

/-- What the HTTP round-trip of `requests.post` did, as seen by the caller:
either the transport failed (`requests.RequestException`), or a response
arrived with a status code and a body that is (`some j`) or is not (`none`)
parseable as JSON. -/
inductive HttpOutcome where
  | transportError (msg : String)
  | response (status : ℕ) (body : Option JVal)

/-- `RequestSender.send` (src/endpoint.py): post the payload; a transport
failure or a `raise_for_status` failure (status ≥ 400) is caught and
re-raised as `SystemExit`; a body that fails to parse as JSON also becomes
`SystemExit`.  `EndPoint.send` just delegates here. -/
def RequestSender.send (outcome : HttpOutcome) : Except PyExc JVal :=
  match outcome with
  | .transportError msg =>
    .error (.systemExit ("Failed to make the request. Error: " ++ msg))
  | .response status body =>
    if 400 ≤ status then
      .error (.systemExit "Failed to make the request. Error: HTTPError")
    else
      match body with
      | some j => .ok j
      | none => .error (.systemExit "Failed to parse the response as JSON.")

/-- State of `SimpleRAG` (src/simple_rag.py): the embedder, the document
processor, the index, endpoint credentials, and the sampling configuration
(constructor defaults `top_n=3`, `model="llama3.2"`, `temperature=0.1`,
`top_p=0.95`, `max_tokens=3000`). -/
structure SimpleRAG where
  embedder : String → Except PyExc Emb
  processor : DocumentProcessor
  index : QdrantIndex
  api_key : String
  api_url : String
  top_n : ℕ
  model : String
  temperature : ℚ
  top_p : ℚ
  max_tokens : ℕ

/-- `SimpleRAG._create_payload`: the fixed system message naming the
assistant's persona, the user prompt, and the configured sampling
parameters, non-streaming. -/
def SimpleRAG.createPayload (rag : SimpleRAG) (prompt : String) : Payload :=
  { model := rag.model,
    messages := [⟨"system", "You are a helpful assistant named DocumentFinder"⟩,
                 ⟨"user", prompt⟩],
    temperature := rag.temperature,
    top_p := rag.top_p,
    max_tokens := rag.max_tokens,
    stream := false }

/-- The `for title in retrieved_titles` loop of `SimpleRAG.retrieve`: read
each retrieved document from the backing directory and append its text plus a
newline to the accumulator; a missing file raises (`OSError`). -/
def readConcat (fs : FS) (dir : String) :
    List String → String → Except PyExc String
  | [], acc => .ok acc
  | t :: ts, acc =>
    match readFile? fs dir t with
    | none => .error (.osError ("No such file or directory: " ++ t))
    | some c => readConcat fs dir ts (acc ++ c ++ "\n")

/-- `SimpleRAG.retrieve`: embed the query, search the index for the top
`self.top_n` titles, concatenate the matched documents' text; every failure is
re-raised by the method's `except`. -/
def SimpleRAG.retrieve (fs : FS) (rag : SimpleRAG) (query : String) :
    Except PyExc (String × List String) :=
  match rag.embedder query with
  | .error e => .error e
  | .ok query_embedding =>
    match rag.index.search query_embedding rag.top_n with
    | .error e => .error e
    | .ok retrieved_titles =>
      match readConcat fs rag.processor.documents_dir retrieved_titles "" with
      | .error e => .error e
      | .ok retrieved_content => .ok (retrieved_content, retrieved_titles)

/-- The body of `SimpleRAG.generate_response` from the completed HTTP call on:
`response["message"]["content"]` is returned on success; any `Exception`
(including a missing key) is caught and turned into `None`; `SystemExit`
raised inside `RequestSender.send` is NOT caught by `except Exception` and
propagates. -/
def handleResponse (outcome : HttpOutcome) : Except PyExc (Option JVal) :=
  match RequestSender.send outcome with
  | .ok response =>
    match (response.field? "message").bind (fun m => m.field? "content") with
    | some v => .ok (some v)
    | none => .ok none
  | .error e => if e.catchableByExcept then .ok none else .error e

/-- `SimpleRAG.generate_response`: build the prompt
`f"Based on the following documents:\n{retrieved_content}\nAnswer the query: {query}"`,
send `self._create_payload(prompt)` through a fresh `EndPoint`, and handle the
outcome as in `handleResponse`.  `net` is the opaque network: what the HTTP
round-trip does with the sent payload. -/
def SimpleRAG.generate_response (net : Payload → HttpOutcome) (rag : SimpleRAG)
    (query retrieved_content : String) : Except PyExc (Option JVal) :=
  let prompt := "Based on the following documents:\n" ++ retrieved_content ++
    "\nAnswer the query: " ++ query
  handleResponse (net (rag.createPayload prompt))

/-- The answer operation (as run by `main.py`/`app.py`): `retrieve` followed
by `generate_response`, returning the optional generated text together with
the retrieved titles. -/
def SimpleRAG.answer (fs : FS) (net : Payload → HttpOutcome) (rag : SimpleRAG)
    (query : String) : Except PyExc (Option JVal × List String) :=
  match rag.retrieve fs query with
  | .error e => .error e
  | .ok (retrieved_content, retrieved_titles) =>
    match rag.generate_response net query retrieved_content with
    | .error e => .error e
    | .ok response => .ok (response, retrieved_titles)

/-- `SimpleRAG.update_documents`: point the processor at the new directory
(BEFORE the `try`), reprocess; `except ValueError: return` swallows a
`ValueError` (other exceptions propagate); on success build a fresh index
(assigned to `self.index` before `add_embeddings` runs, so a failing add
leaves the fresh empty index in place) and bulk-insert the processor's
accumulated lists. -/
def SimpleRAG.update_documents (fs : FS) (rag : SimpleRAG)
    (new_documents_dir : String) : Option PyExc × SimpleRAG :=
  let processor0 := { rag.processor with documents_dir := new_documents_dir }
  match processDocuments fs processor0 with
  | (some e, processor1) =>
    if e.isValueError then (none, { rag with processor := processor1 })
    else (some e, { rag with processor := processor1 })
  | (none, processor1) =>
    let dimension := processor1.document_embeddings.headI.length
    let index0 := QdrantIndex.create dimension
    match index0.add_embeddings processor1.document_embeddings
        processor1.document_titles with
    | .error e => (some e, { rag with processor := processor1, index := index0 })
    | .ok index1 => (none, { rag with processor := processor1, index := index1 })

/-- `create_simple_rag` (src/simple_rag.py): build a processor over the
directory, process the documents (`except ValueError: return None`; other
exceptions propagate), take the embedding dimension from the first produced
embedding (`document_embeddings[0].shape[1]`), build and fill the index, and
construct the `SimpleRAG` — forwarding only `max_tokens`, so `model`,
`temperature` and `top_p` fall back to the constructor defaults.  `embedder`
stands for the `TextEmbedder` loaded from `huggingface_token` (the token
itself is only used for that external model download). -/
def create_simple_rag (fs : FS) (embedder : String → Except PyExc Emb)
    (documents_dir api_key api_url huggingface_token : String)
    (model : String) (temperature : ℚ) (top_p : ℚ) (max_tokens : ℕ) :
    Except PyExc (Option SimpleRAG) :=
  let processor := DocumentProcessor.init documents_dir embedder
  match processDocuments fs processor with
  | (some e, _) => if e.isValueError then .ok none else .error e
  | (none, processor') =>
    let dimension := processor'.document_embeddings.headI.length
    match (QdrantIndex.create dimension).add_embeddings
        processor'.document_embeddings processor'.document_titles with
    | .error e => .error e
    | .ok index =>
      .ok (some { embedder := embedder, processor := processor', index := index,
                  api_key := api_key, api_url := api_url,
                  top_n := 3, model := "llama3.2", temperature := 1/10,
                  top_p := 19/20, max_tokens := max_tokens })

/-- Definition of the spec's reading of "concatenate ... separated by
newline": the documents' texts interspersed with single newlines (no trailing
newline).  Used only to compare the spec's wording with the source's
behaviour. -/
def specSeparatedConcat (texts : List String) : String :=
  String.intercalate "\n" texts

/-- What the `retrieve` loop actually accumulates: each document's text
followed by a newline. -/
def concatTexts (fs : FS) (dir : String) : List String → String
  | [] => ""
  | t :: ts => ((readFile? fs dir t).getD "") ++ "\n" ++ concatTexts fs dir ts

theorem processFiles_fst_dir (files : List (String × String))
    (s : DocumentProcessor) :
    (processFiles files s).2.documents_dir = s.documents_dir ∧
      (processFiles files s).2.embedder = s.embedder := by
  induction files generalizing s with
  | nil => exact ⟨rfl, rfl⟩
  | cons f rest ih =>
    obtain ⟨name, content⟩ := f
    by_cases h : strEndsWith name ".txt"
    · simp only [processFiles, h, if_true]
      cases hemb : s.embedder content with
      | error e => exact ⟨rfl, rfl⟩
      | ok emb => exact ih _
    · simp only [processFiles, h, if_false]
      exact ih s

/-- The processing loop only appends, and every appended pair is a `.txt`
file of the listing whose content the embedder successfully embedded.  This
holds whether the loop finished or aborted on an exception. -/
theorem processFiles_decomp (files : List (String × String))
    (s : DocumentProcessor) :
    ∃ ps : List (String × Emb),
      (processFiles files s).2.document_titles =
          s.document_titles ++ ps.map Prod.fst ∧
      (processFiles files s).2.document_embeddings =
          s.document_embeddings ++ ps.map Prod.snd ∧
      ∀ p ∈ ps, strEndsWith p.1 ".txt" = true ∧
        ∃ c, (p.1, c) ∈ files ∧ s.embedder c = Except.ok p.2 := by
  induction files generalizing s with
  | nil => exact ⟨[], by simp [processFiles]⟩
  | cons f rest ih =>
    obtain ⟨name, content⟩ := f
    by_cases h : strEndsWith name ".txt"
    · simp only [processFiles, h, if_true]
      cases hemb : s.embedder content with
      | error e => exact ⟨[], by simp⟩
      | ok emb =>
        obtain ⟨ps, ht, he, hmem⟩ :=
          ih { s with document_embeddings := s.document_embeddings ++ [emb],
                      document_titles := s.document_titles ++ [name] }
        refine ⟨(name, emb) :: ps, ?_, ?_, ?_⟩
        · simpa [List.append_assoc] using ht
        · simpa [List.append_assoc] using he
        · intro p hp
          rcases List.mem_cons.mp hp with rfl | hp'
          · exact ⟨h, content, List.mem_cons_self _ _, hemb⟩
          · obtain ⟨htxt, c, hc, hok⟩ := hmem p hp'
            exact ⟨htxt, c, List.mem_cons_of_mem _ hc, hok⟩
    · simp only [processFiles, h, if_false]
      obtain ⟨ps, ht, he, hmem⟩ := ih s
      refine ⟨ps, ht, he, fun p hp => ?_⟩
      obtain ⟨htxt, c, hc, hok⟩ := hmem p hp
      exact ⟨htxt, c, List.mem_cons_of_mem _ hc, hok⟩

/-- When the embedder succeeds on every `.txt` file of the listing (all with
dimension `d`), the loop finishes without an exception and appends exactly one
title and one embedding per `.txt` file, in listing order. -/
theorem processFiles_ok (d : ℕ) (files : List (String × String))
    (s : DocumentProcessor)
    (h : ∀ f ∈ files, strEndsWith f.1 ".txt" = true →
      ∃ e, s.embedder f.2 = Except.ok e ∧ e.length = d) :
    (processFiles files s).1 = none ∧
    (processFiles files s).2.document_titles =
        s.document_titles ++
          (files.filter (fun f => strEndsWith f.1 ".txt")).map Prod.fst ∧
    ∃ es : List Emb,
      (processFiles files s).2.document_embeddings =
          s.document_embeddings ++ es ∧
      es.length = ((files.filter (fun f => strEndsWith f.1 ".txt")).map
        Prod.fst).length ∧
      ∀ e ∈ es, e.length = d := by
  induction files generalizing s with
  | nil => exact ⟨rfl, by simp [processFiles], [], by simp [processFiles]⟩
  | cons f rest ih =>
    obtain ⟨name, content⟩ := f
    by_cases htxt : strEndsWith name ".txt"
    · obtain ⟨e, hok, hlen⟩ := h (name, content) (List.mem_cons_self _ _) htxt
      simp only [processFiles, htxt, if_true, hok]
      have h' : ∀ f ∈ rest, strEndsWith f.1 ".txt" = true →
          ∃ e', ({ s with
              document_embeddings := s.document_embeddings ++ [e],
              document_titles := s.document_titles ++ [name] } :
            DocumentProcessor).embedder f.2 = Except.ok e' ∧ e'.length = d :=
        fun f hf => h f (List.mem_cons_of_mem _ hf)
      obtain ⟨h1, h2, es, he, hlen', hall⟩ := ih _ h'
      refine ⟨h1, ?_, e :: es, ?_, ?_, ?_⟩
      · simpa [htxt, List.append_assoc] using h2
      · simpa [List.append_assoc] using he
      · simp [htxt, hlen']
      · intro e' he'
        rcases List.mem_cons.mp he' with rfl | he''
        · exact hlen
        · exact hall e' he''
    · simp only [processFiles, htxt, if_false]
      have h' : ∀ f ∈ rest, strEndsWith f.1 ".txt" = true →
          ∃ e, s.embedder f.2 = Except.ok e ∧ e.length = d :=
        fun f hf => h f (List.mem_cons_of_mem _ hf)
      obtain ⟨h1, h2, es, he, hlen', hall⟩ := ih s h'
      exact ⟨h1, by simpa [htxt] using h2, es, he, by simpa [htxt] using hlen',
        hall⟩

theorem length_enumPoints (i : ℕ) (l : List (Emb × String)) :
    (enumPoints i l).length = l.length := by
  induction l generalizing i with
  | nil => rfl
  | cons et rest ih => obtain ⟨e, t⟩ := et; simp [enumPoints, ih]

theorem enumPoints_getElem? (l : List (Emb × String)) :
    ∀ (i k : ℕ),
      (enumPoints i l)[k]? = l[k]?.map (fun et => ⟨i + k, et.1, et.2⟩) := by
  induction l with
  | nil => intro i k; simp [enumPoints]
  | cons et rest ih =>
    intro i k
    obtain ⟨e, t⟩ := et
    cases k with
    | zero => simp [enumPoints]
    | succ k =>
      simp only [enumPoints, List.getElem?_cons_succ, ih (i + 1) k]
      cases rest[k]? with
      | none => rfl
      | some et' => simp [Nat.add_assoc, Nat.add_comm 1 k]

theorem mem_enumPoints {p : Point} :
    ∀ (i : ℕ) (l : List (Emb × String)), p ∈ enumPoints i l →
      i ≤ p.id ∧ (p.vec, p.title) ∈ l := by
  intro i l
  induction l generalizing i with
  | nil => intro h; simp [enumPoints] at h
  | cons et rest ih =>
    obtain ⟨e, t⟩ := et
    intro hp
    rcases List.mem_cons.mp hp with rfl | hp'
    · exact ⟨Nat.le_refl _, List.mem_cons_self _ _⟩
    · obtain ⟨hle, hmem⟩ := ih (i + 1) hp'
      exact ⟨Nat.le_of_succ_le hle, List.mem_cons_of_mem _ hmem⟩

/-- Upserting freshly enumerated points (all ids ≥ `i`) into a collection
whose ids are all `< i` appends them in order. -/
theorem foldl_upsertOne_fresh (l : List (Emb × String)) :
    ∀ (i : ℕ) (acc : List Point), (∀ q ∈ acc, q.id < i) →
      (enumPoints i l).foldl upsertOne acc = acc ++ enumPoints i l := by
  induction l with
  | nil => intro i acc _; simp [enumPoints]
  | cons et rest ih =>
    intro i acc hacc
    obtain ⟨e, t⟩ := et
    have hany : acc.any (fun q => q.id = i) = false := by
      rw [List.any_eq_false]
      intro q hq
      simp only [decide_eq_true_eq]
      exact Nat.ne_of_lt (hacc q hq)
    have hup : upsertOne acc ⟨i, e, t⟩ = acc ++ [⟨i, e, t⟩] := by
      simp [upsertOne, hany]
    have hacc' : ∀ q ∈ acc ++ [(⟨i, e, t⟩ : Point)], q.id < i + 1 := by
      intro q hq
      rcases List.mem_append.mp hq with hq | hq
      · exact Nat.lt_succ_of_lt (hacc q hq)
      · rcases List.mem_singleton.mp hq with rfl
        exact Nat.lt_succ_self i
    calc (enumPoints i ((e, t) :: rest)).foldl upsertOne acc
      = (enumPoints (i + 1) rest).foldl upsertOne (upsertOne acc ⟨i, e, t⟩) :=
        rfl
    _ = (acc ++ [⟨i, e, t⟩]) ++ enumPoints (i + 1) rest := by
        rw [hup]
        exact ih (i + 1) (acc ++ [⟨i, e, t⟩]) hacc'
    _ = acc ++ enumPoints i ((e, t) :: rest) := by
        simp [enumPoints, List.append_assoc]

/-- `add_embeddings` on a freshly created index, with well-dimensioned
embeddings: stores exactly the enumerated points. -/
theorem add_embeddings_create (d : ℕ) (embs : List Emb) (titles : List String)
    (h : ∀ e ∈ embs, e.length = d) :
    (QdrantIndex.create d).add_embeddings embs titles =
      Except.ok ⟨d, enumPoints 0 (embs.zip titles)⟩ := by
  have hall : (enumPoints 0 (embs.zip titles)).all
      (fun p => p.vec.length = (QdrantIndex.create d).dimension) = true := by
    rw [List.all_eq_true]
    intro p hp
    obtain ⟨-, hmem⟩ := mem_enumPoints 0 _ hp
    have := h p.vec (List.of_mem_zip hmem).1
    simp [QdrantIndex.create, this]
  have hfresh : List.foldl upsertOne (QdrantIndex.create d).collection
      (enumPoints 0 (embs.zip titles)) = enumPoints 0 (embs.zip titles) := by
    have := foldl_upsertOne_fresh (embs.zip titles) 0 []
      (by intro q hq; simp at hq)
    simpa [QdrantIndex.create] using this
  simp only [QdrantIndex.add_embeddings]
  rw [if_pos hall, hfresh]
  rfl

/-- "Cosine similarity of `a` to `u` is at least that of `b` to `u`", written
without square roots: for `normSq a, normSq b > 0`,
`dot u a / (‖u‖ * ‖a‖) ≥ dot u b / (‖u‖ * ‖b‖)` iff
`dot u b * |dot u b| * normSq a ≤ dot u a * |dot u a| * normSq b`
(multiply through by `‖a‖ ‖b‖ > 0`, and use that `x ↦ x * |x|` is the
strictly increasing map with `(x / s) * |x / s| = x * |x| / s ^ 2` for
`s > 0`). -/
def cosGe (u a b : List ℚ) : Prop :=
  dot u b * |dot u b| * normSq a ≤ dot u a * |dot u a| * normSq b

theorem cosGe_of_simKey_le {u a b : List ℚ} (ha : 0 < normSq a)
    (hb : 0 < normSq b) (h : simKey u b ≤ simKey u a) : cosGe u a b := by
  unfold simKey at h
  rw [div_le_div_iff₀ hb ha] at h
  exact h

theorem simKey_le_of_searchRel {u : List ℚ} {p q : Point}
    (h : searchRel u p q) : simKey u q.vec ≤ simKey u p.vec := by
  rcases h with h | ⟨h, -⟩
  · exact le_of_lt h
  · exact le_of_eq h.symm

/-- The key of a vector against itself is its squared norm (cosine
similarity 1, under the `simKey` transform). -/
theorem simKey_self {u : List ℚ} (hu : 0 < normSq u) :
    simKey u u = normSq u := by
  have hu' : (0 : ℚ) < dot u u := hu
  unfold simKey normSq
  rw [abs_of_pos hu', mul_div_assoc, div_self (ne_of_gt hu'), mul_one]

/-- A listing without `.txt` files leaves the processor untouched. -/
theorem processFiles_no_txt (files : List (String × String))
    (s : DocumentProcessor)
    (h : ∀ f ∈ files, strEndsWith f.1 ".txt" = false) :
    processFiles files s = (none, s) := by
  induction files with
  | nil => rfl
  | cons f rest ih =>
    obtain ⟨name, content⟩ := f
    have hf := h (name, content) (List.mem_cons_self _ _)
    simp only [processFiles, hf, Bool.false_eq_true, if_false]
    exact ih (fun f hf' => h f (List.mem_cons_of_mem _ hf'))

/-- `process_documents` never mutates beyond what the file loop did: the
final empty-list check only raises. -/
theorem processDocuments_snd (fs : FS) (s : DocumentProcessor) :
    (processDocuments fs s).2 = (processFiles (fs s.documents_dir) s).2 := by
  unfold processDocuments
  rcases hpf : processFiles (fs s.documents_dir) s with ⟨err, s'⟩
  cases err with
  | none =>
    by_cases hemp : s'.document_embeddings.isEmpty <;> simp [hemp]
  | some e => simp

/-- Deterministic stub embedder: every text embeds to the 1-dimensional
vector `[1]`. -/
def okEmbedder : String → Except PyExc Emb := fun _ => Except.ok [1]

/-- A filesystem with a single directory `docs` holding one text file. -/
def oneDocFS : FS := fun d => if d = "docs" then [("a.txt", "alpha")] else []

/-- Placeholder orchestrator used only as the `getD` default when a build is
known (and proved) to succeed. -/
def dummyRag : SimpleRAG :=
  { embedder := fun _ => Except.ok [],
    processor := DocumentProcessor.init "" (fun _ => Except.ok []),
    index := QdrantIndex.create 0, api_key := "", api_url := "",
    top_n := 3, model := "llama3.2", temperature := 1/10, top_p := 19/20,
    max_tokens := 3000 }

/-- The orchestrator a successful `create_simple_rag` returns (falling back to
`dummyRag` on the failure branches, which the accompanying theorems rule
out). -/
def builtRag (fs : FS) (embedder : String → Except PyExc Emb)
    (documents_dir api_key api_url huggingface_token : String)
    (model : String) (temperature : ℚ) (top_p : ℚ) (max_tokens : ℕ) :
    SimpleRAG :=
  match create_simple_rag fs embedder documents_dir api_key api_url
      huggingface_token model temperature top_p max_tokens with
  | .ok (some rag) => rag
  | _ => dummyRag

/-- A Ready orchestrator built over `oneDocFS`. -/
def ragDocs : SimpleRAG :=
  builtRag oneDocFS okEmbedder "docs" "key" "url" "tok" "llama3.2" (1/10)
    (19/20) 3000

/-- A network on which every request comes back as HTTP 500. -/
def http500 : Payload → HttpOutcome := fun _ => HttpOutcome.response 500 none

/-- An embedder that raises `ValueError` on the content `"boom"` and embeds
everything else as `[1]`. -/
def embedderBoom : String → Except PyExc Emb := fun c =>
  if c = "boom" then Except.error (PyExc.valueError "embedding failed")
  else Except.ok [1]

/-- Two directories: `d1` processes cleanly, `d2` holds a file whose content
makes `embedderBoom` raise. -/
def twoDirFS : FS := fun d =>
  if d = "d1" then [("a.txt", "alpha")]
  else if d = "d2" then [("b.txt", "boom")]
  else []

/-- A Ready orchestrator built over `twoDirFS` from directory `d1`. -/
def ragD1 : SimpleRAG :=
  builtRag twoDirFS embedderBoom "d1" "key" "url" "tok" "llama3.2" (1/10)
    (19/20) 3000

/-- C1: the claim says that when the Completion Client call fails (transport
failure, HTTP 500, or unparseable body) the answer operation returns
`(none, retrievedTitles)` without raising.  The code disagrees:
`RequestSender.send` converts those failures into `SystemExit`, which Python's
`except Exception` in `generate_response` does not catch, so the whole call
raises.  This theorem evaluates the code on the failing input (every request
answered with HTTP 500): retrieval succeeds with titles `["a.txt"]`, yet
`answer` propagates `SystemExit` instead of returning
`(none, ["a.txt"])`. -/
theorem c1_answer_raises_on_http500 :
    SimpleRAG.retrieve oneDocFS ragDocs "what is alpha?" =
      Except.ok ("alpha\n", ["a.txt"]) ∧
    SimpleRAG.answer oneDocFS http500 ragDocs "what is alpha?" =
      Except.error
        (PyExc.systemExit "Failed to make the request. Error: HTTPError") ∧
    SimpleRAG.answer oneDocFS http500 ragDocs "what is alpha?" ≠
      Except.ok (none, ["a.txt"]) := by
  refine ⟨rfl, rfl, fun h => ?_⟩
  have h2 : SimpleRAG.answer oneDocFS http500 ragDocs "what is alpha?" =
      Except.error
        (PyExc.systemExit "Failed to make the request. Error: HTTPError") := rfl
  rw [h2] at h
  exact Except.noConfusion h

/-- C2: the claim says rebuilding over the unchanged directory reproduces the
same entry set.  The code disagrees: `process_documents` appends to the
processor's lists without clearing them, so the rebuild re-indexes the old
entries together with the re-processed ones.  Evaluated on a one-file
directory: the first build stores one entry `"a.txt"`, the rebuild over the
same directory stores two (the title duplicated), so the rebuilt entry set is
not the original one. -/
theorem c2_rebuild_duplicates_entries :
    ragDocs.index.collection.map Point.title = ["a.txt"] ∧
    ragDocs.processor.document_titles = ["a.txt"] ∧
    (SimpleRAG.update_documents oneDocFS ragDocs "docs").1 = none ∧
    (SimpleRAG.update_documents oneDocFS ragDocs
        "docs").2.index.collection.map Point.title = ["a.txt", "a.txt"] ∧
    (SimpleRAG.update_documents oneDocFS ragDocs
        "docs").2.index.collection ≠ ragDocs.index.collection := by
  refine ⟨rfl, rfl, rfl, rfl, fun h => ?_⟩
  have hlen := congrArg List.length h
  simp only [show (SimpleRAG.update_documents oneDocFS ragDocs
      "docs").2.index.collection.length = 2 from rfl,
    show ragDocs.index.collection.length = 1 from rfl] at hlen
  exact absurd hlen (by decide)

/-- C3: the claim says a failed reprocess leaves the orchestrator in its prior
state (directory included) and propagates the `ProcessingError`.  The code
disagrees: `update_documents` assigns the new directory before the `try`, and
`except ValueError: return` swallows the error.  Evaluated on a Ready
orchestrator over `d1` rebuilt towards `d2` (whose file makes the embedder
raise `ValueError`): processing does raise, yet `update_documents` returns
without an exception and leaves `documents_dir = "d2"`. -/
theorem c3_update_swallows_error_and_keeps_new_dir :
    ragD1.processor.documents_dir = "d1" ∧
    (processDocuments twoDirFS
        { ragD1.processor with documents_dir := "d2" }).1 =
      some (PyExc.valueError "embedding failed") ∧
    (SimpleRAG.update_documents twoDirFS ragD1 "d2").1 = none ∧
    (SimpleRAG.update_documents twoDirFS ragD1
        "d2").2.processor.documents_dir = "d2" := by
  exact ⟨rfl, rfl, rfl, rfl⟩

/-- C4: building over a directory with no `.txt` file makes
`process_documents` raise the `ValueError` ("no document embeddings"), and
`create_simple_rag` catches it and returns `None` — no orchestrator instance
is produced. -/
theorem c4_build_fails_on_empty_directory (fs : FS)
    (embedder : String → Except PyExc Emb)
    (dir key url tok model : String) (temp topp : ℚ) (maxtok : ℕ)
    (h : ∀ f ∈ fs dir, strEndsWith f.1 ".txt" = false) :
    (processDocuments fs (DocumentProcessor.init dir embedder)).1 =
      some (PyExc.valueError
        "No document embeddings were created. Please check your documents directory.") ∧
    create_simple_rag fs embedder dir key url tok model temp topp maxtok =
      Except.ok none := by
  have hpf : processFiles (fs (DocumentProcessor.init dir embedder).documents_dir)
      (DocumentProcessor.init dir embedder) =
      (none, DocumentProcessor.init dir embedder) :=
    processFiles_no_txt (fs dir) (DocumentProcessor.init dir embedder) h
  have hpd : processDocuments fs (DocumentProcessor.init dir embedder) =
      (some (PyExc.valueError
        "No document embeddings were created. Please check your documents directory."),
       DocumentProcessor.init dir embedder) := by
    unfold processDocuments
    rw [hpf]
    rfl
  refine ⟨by rw [hpd], ?_⟩
  simp only [create_simple_rag]
  rw [hpd]
  rfl

/-- Directory fixture with one unsupported (non-`.txt`) file. -/
def mdFS : FS := fun d => if d = "misc" then [("notes.md", "x")] else []

/-- Witness for C4 at the concrete directory `misc` of `mdFS`. -/
theorem c4_build_fails_on_empty_directory_witness :
    (∀ f ∈ mdFS "misc", strEndsWith f.1 ".txt" = false) ∧
    ((processDocuments mdFS (DocumentProcessor.init "misc" okEmbedder)).1 =
      some (PyExc.valueError
        "No document embeddings were created. Please check your documents directory.") ∧
    create_simple_rag mdFS okEmbedder "misc" "k" "u" "t" "llama3.2" (1/10)
        (19/20) 3000 = Except.ok none) :=
  ⟨by decide,
   c4_build_fails_on_empty_directory mdFS okEmbedder "misc" "k" "u" "t"
     "llama3.2" (1/10) (19/20) 3000 (by decide)⟩

/-- C5: whatever `model`, `temperature`, `top_p` are passed to
`create_simple_rag`, the returned orchestrator carries the constructor
defaults `model="llama3.2"`, `temperature=0.1`, `top_p=0.95` — they appear in
every completion payload it creates — and only `max_tokens` is forwarded. -/
theorem c5_create_drops_sampling_args (fs : FS)
    (embedder : String → Except PyExc Emb)
    (dir key url tok model : String) (temp topp : ℚ) (maxtok : ℕ)
    (rag : SimpleRAG)
    (h : create_simple_rag fs embedder dir key url tok model temp topp maxtok =
      Except.ok (some rag)) :
    rag.model = "llama3.2" ∧ rag.temperature = 1/10 ∧ rag.top_p = 19/20 ∧
    rag.max_tokens = maxtok ∧
    ∀ prompt, rag.createPayload prompt =
      { model := "llama3.2",
        messages := [⟨"system", "You are a helpful assistant named DocumentFinder"⟩,
                     ⟨"user", prompt⟩],
        temperature := 1/10, top_p := 19/20, max_tokens := maxtok,
        stream := false } := by
  simp only [create_simple_rag] at h
  split at h
  · split at h <;> simp at h
  · split at h
    · simp at h
    · simp only [Except.ok.injEq, Option.some.injEq] at h
      subst h
      exact ⟨rfl, rfl, rfl, rfl, fun prompt => rfl⟩

/-- The orchestrator built with non-default sampling arguments, used as the
C5 witness input. -/
def ragAlt : SimpleRAG :=
  builtRag oneDocFS okEmbedder "docs" "k" "u" "t" "mistral" (7/10) (1/2) 800

/-- Witness for C5: `create_simple_rag` called with `model="mistral"`,
`temperature=0.7`, `top_p=0.5`, `max_tokens=800` still yields the constructor
defaults, with only `max_tokens` forwarded. -/
theorem c5_create_drops_sampling_args_witness :
    (create_simple_rag oneDocFS okEmbedder "docs" "k" "u" "t" "mistral" (7/10)
      (1/2) 800 = Except.ok (some ragAlt)) ∧
    (ragAlt.model = "llama3.2" ∧ ragAlt.temperature = 1/10 ∧
     ragAlt.top_p = 19/20 ∧ ragAlt.max_tokens = 800 ∧
     ∀ prompt, ragAlt.createPayload prompt =
       { model := "llama3.2",
         messages := [⟨"system", "You are a helpful assistant named DocumentFinder"⟩,
                      ⟨"user", prompt⟩],
         temperature := 1/10, top_p := 19/20, max_tokens := 800,
         stream := false }) :=
  ⟨rfl,
   c5_create_drops_sampling_args oneDocFS okEmbedder "docs" "k" "u" "t"
     "mistral" (7/10) (1/2) 800 ragAlt rfl⟩

/-- C6 counterexample: with two stored entries carrying the identical vector
`[1]` (ids 0 = "a" and 1 = "b"), the query `[1]` is identical to entry
`"b"`'s vector, yet the tie at similarity 1.0 is broken towards the lower id,
so `search` returns `"a"` first — refuting "a query vector identical to a
stored vector returns that entry's title first" as stated. -/
theorem c6_identical_vector_not_first :
    (QdrantIndex.create 1).add_embeddings [[(1 : ℚ)], [(1 : ℚ)]] ["a", "b"] =
      Except.ok ⟨1, [⟨0, [1], "a"⟩, ⟨1, [1], "b"⟩]⟩ ∧
    QdrantIndex.search ⟨1, [⟨0, [(1 : ℚ)], "a"⟩, ⟨1, [(1 : ℚ)], "b"⟩]⟩
        [(1 : ℚ)] 2 = Except.ok ["a", "b"] ∧
    (["a", "b"] : List String).head? ≠ some "b" := by
  refine ⟨rfl, ?_, by decide⟩
  simp [QdrantIndex.search, clientSearch, searchRel, simKey, dot, normSq]

/-- C6 (amended): for an index of nonzero vectors and `topN ≥ 1`, `search`
returns at most `topN` titles, each the title of a stored entry, ordered by
non-increasing cosine similarity to the query (stated through `cosGe`, the
cross-multiplied similarity comparison); with fewer than `topN` entries it
returns all of them (as a permutation of the stored titles); and a query
identical to a stored entry's vector returns that entry's title first
PROVIDED every other entry is strictly less similar (`simKey` below
`normSq u`, the key of a perfect match) — the proviso the counterexample
forces, since ties at similarity 1.0 go to the lower id. -/
theorem c6_search_contract (idx : QdrantIndex) (u : List ℚ) (n : ℕ)
    (hn : 1 ≤ n) (hq : u.length = idx.dimension)
    (hnorm : ∀ q ∈ idx.collection, 0 < normSq q.vec) :
    idx.search u n = Except.ok ((clientSearch idx u n).map Point.title) ∧
    ((clientSearch idx u n).map Point.title).length ≤ n ∧
    (∀ t ∈ (clientSearch idx u n).map Point.title,
      ∃ p ∈ idx.collection, p.title = t) ∧
    (clientSearch idx u n).Pairwise (fun p q => cosGe u p.vec q.vec) ∧
    (idx.collection.length ≤ n →
      ((clientSearch idx u n).map Point.title).Perm
        (idx.collection.map Point.title)) ∧
    (∀ p ∈ idx.collection, p.vec = u →
      (∀ q ∈ idx.collection, q ≠ p → simKey u q.vec < normSq u) →
      ((clientSearch idx u n).map Point.title).head? = some p.title) := by
  have hperm : (idx.collection.insertionSort (searchRel u)).Perm
      idx.collection := List.perm_insertionSort _ _
  have hsorted : (idx.collection.insertionSort (searchRel u)).Sorted
      (searchRel u) := List.sorted_insertionSort _ _
  refine ⟨?_, ?_, ?_, ?_, ?_, ?_⟩
  · unfold QdrantIndex.search
    rw [if_pos hq]
  · simp only [List.length_map, clientSearch]
    exact List.length_take_le n _
  · intro t ht
    obtain ⟨p, hp, rfl⟩ := List.mem_map.mp ht
    exact ⟨p, hperm.mem_iff.mp (List.mem_of_mem_take hp), rfl⟩
  · have hpair : (clientSearch idx u n).Pairwise (searchRel u) :=
      List.Pairwise.sublist (List.take_sublist n _) hsorted
    refine hpair.imp_of_mem (fun {p q} hp hq' hrel => ?_)
    have hp' : p ∈ idx.collection :=
      hperm.mem_iff.mp (List.mem_of_mem_take hp)
    have hq'' : q ∈ idx.collection :=
      hperm.mem_iff.mp (List.mem_of_mem_take hq')
    exact cosGe_of_simKey_le (hnorm p hp') (hnorm q hq'')
      (simKey_le_of_searchRel hrel)
  · intro hlen
    have hlen' : (idx.collection.insertionSort (searchRel u)).length ≤ n := by
      rw [hperm.length_eq]
      exact hlen
    have htake : clientSearch idx u n =
        idx.collection.insertionSort (searchRel u) := by
      unfold clientSearch
      exact List.take_of_length_le hlen'
    rw [htake]
    exact hperm.map Point.title
  · intro p hp hvec hmax
    have hN : 0 < normSq u := by
      rw [← hvec]
      exact hnorm p hp
    have hkeyp : simKey u p.vec = normSq u := by
      rw [hvec]
      exact simKey_self hN
    have hne : idx.collection.insertionSort (searchRel u) ≠ [] := by
      intro h0
      have hnil : idx.collection = [] := by
        have := hperm.symm
        rw [h0] at this
        exact this.eq_nil
      rw [hnil] at hp
      exact absurd hp (List.not_mem_nil p)
    obtain ⟨h0, tl, hcons⟩ := List.exists_cons_of_ne_nil hne
    obtain ⟨m, rfl⟩ : ∃ m, n = m + 1 := ⟨n - 1, by omega⟩
    have hclient : clientSearch idx u (m + 1) = h0 :: List.take m tl := by
      unfold clientSearch
      rw [hcons]
      rfl
    have hh0 : h0.title = p.title := by
      rcases eq_or_ne h0 p with rfl | hne'
      · rfl
      · have hh0mem : h0 ∈ idx.collection :=
          hperm.mem_iff.mp (hcons ▸ List.mem_cons_self h0 tl)
        have hkey0 : simKey u h0.vec < normSq u := hmax h0 hh0mem hne'
        have hpmem : p ∈ idx.collection.insertionSort (searchRel u) :=
          hperm.mem_iff.mpr hp
        have hptl : p ∈ tl := by
          rw [hcons] at hpmem
          rcases List.mem_cons.mp hpmem with h' | h'
          · exact absurd h'.symm hne'
          · exact h'
        have hrel : searchRel u h0 p := by
          rw [hcons] at hsorted
          exact List.rel_of_sorted_cons hsorted p hptl
        rcases hrel with h' | ⟨h', -⟩
        · rw [hkeyp] at h'
          exact absurd h' (not_lt.mpr (le_of_lt hkey0))
        · rw [hkeyp] at h'
          exact absurd h' (ne_of_lt hkey0)
    rw [hclient]
    simp [hh0]

/-- Two-entry index over orthogonal unit axes, the C6 witness input. -/
def idxAxes : QdrantIndex :=
  ⟨2, [⟨0, [(1 : ℚ), 0], "a"⟩, ⟨1, [(0 : ℚ), 1], "b"⟩]⟩

/-- Witness for C6 at the concrete index `idxAxes`, query `[1, 0]`,
`topN = 2`. -/
theorem c6_search_contract_witness :
    (1 ≤ 2 ∧ ([(1 : ℚ), 0]).length = idxAxes.dimension ∧
      ∀ q ∈ idxAxes.collection, 0 < normSq q.vec) ∧
    (idxAxes.search [(1 : ℚ), 0] 2 =
        Except.ok ((clientSearch idxAxes [(1 : ℚ), 0] 2).map Point.title) ∧
      ((clientSearch idxAxes [(1 : ℚ), 0] 2).map Point.title).length ≤ 2 ∧
      (∀ t ∈ (clientSearch idxAxes [(1 : ℚ), 0] 2).map Point.title,
        ∃ p ∈ idxAxes.collection, p.title = t) ∧
      (clientSearch idxAxes [(1 : ℚ), 0] 2).Pairwise
        (fun p q => cosGe [(1 : ℚ), 0] p.vec q.vec) ∧
      (idxAxes.collection.length ≤ 2 →
        ((clientSearch idxAxes [(1 : ℚ), 0] 2).map Point.title).Perm
          (idxAxes.collection.map Point.title)) ∧
      (∀ p ∈ idxAxes.collection, p.vec = [(1 : ℚ), 0] →
        (∀ q ∈ idxAxes.collection, q ≠ p →
          simKey [(1 : ℚ), 0] q.vec < normSq [(1 : ℚ), 0]) →
        ((clientSearch idxAxes [(1 : ℚ), 0] 2).map Point.title).head? =
          some p.title)) :=
  ⟨⟨by omega, rfl, by
      intro q hq
      rcases List.mem_cons.mp hq with rfl | hq'
      · norm_num [normSq, dot]
      · rcases List.mem_cons.mp hq' with rfl | hq''
        · norm_num [normSq, dot]
        · exact absurd hq'' (List.not_mem_nil q)⟩,
   c6_search_contract idxAxes [(1 : ℚ), 0] 2 (by omega) rfl (by
      intro q hq
      rcases List.mem_cons.mp hq with rfl | hq'
      · norm_num [normSq, dot]
      · rcases List.mem_cons.mp hq' with rfl | hq''
        · norm_num [normSq, dot]
        · exact absurd hq'' (List.not_mem_nil q))⟩

/-- C7: `add_embeddings` on a fresh index stores each (vector, title) pair at
the identifier equal to its 0-based position in the input sequence — duplicate
titles included, since entries are keyed by position, not title. -/
theorem c7_addAll_positional_ids (d : ℕ) (embs : List Emb)
    (titles : List String) (hdim : ∀ e ∈ embs, e.length = d) :
    ∃ idx, (QdrantIndex.create d).add_embeddings embs titles =
        Except.ok idx ∧
      idx.collection.length = min embs.length titles.length ∧
      ∀ k : ℕ, idx.collection[k]? =
        (embs.zip titles)[k]?.map (fun et => ⟨k, et.1, et.2⟩) := by
  refine ⟨⟨d, enumPoints 0 (embs.zip titles)⟩,
    add_embeddings_create d embs titles hdim, ?_, ?_⟩
  · simp [length_enumPoints, List.length_zip]
  · intro k
    rw [enumPoints_getElem?]
    simp

/-- Witness for C7 with a duplicated title: both pairs survive as distinct
entries with ids 0 and 1. -/
theorem c7_addAll_positional_ids_witness :
    (∀ e ∈ [[(1 : ℚ)], [(1 : ℚ)]], e.length = 1) ∧
    (∃ idx, (QdrantIndex.create 1).add_embeddings [[(1 : ℚ)], [(1 : ℚ)]]
        ["dup.txt", "dup.txt"] = Except.ok idx ∧
      idx.collection.length = min 2 2 ∧
      ∀ k : ℕ, idx.collection[k]? =
        (([[(1 : ℚ)], [(1 : ℚ)]]).zip ["dup.txt", "dup.txt"])[k]?.map
          (fun et => ⟨k, et.1, et.2⟩)) :=
  ⟨by decide,
   c7_addAll_positional_ids 1 [[(1 : ℚ)], [(1 : ℚ)]] ["dup.txt", "dup.txt"]
     (by decide)⟩

/-- A successful pass of the `retrieve` reading loop yields the accumulator
followed by each document's text, each text terminated by a newline. -/
theorem readConcat_ok (fs : FS) (dir : String) :
    ∀ (ts : List String) (acc content : String),
      readConcat fs dir ts acc = Except.ok content →
      content = acc ++ concatTexts fs dir ts := by
  intro ts
  induction ts with
  | nil =>
    intro acc content h
    simp only [readConcat, Except.ok.injEq] at h
    rw [← h, concatTexts, String.append_empty]
  | cons t ts ih =>
    intro acc content h
    simp only [readConcat] at h
    cases hr : readFile? fs dir t with
    | none =>
      rw [hr] at h
      exact absurd h (by simp)
    | some c =>
      rw [hr] at h
      have := ih (acc ++ c ++ "\n") content h
      rw [this, concatTexts, hr]
      simp [String.append_assoc]

/-- C8 (amended): for any query answered from the Ready state, the retrieved
context is the concatenation of each matched document's full text EACH
FOLLOWED BY a newline (so a trailing newline precedes the prompt's own
newline — the code writes `content + "\n"` per document, not
newline-separated), and the request is sent with the payload holding the
fixed `DocumentFinder` system prompt, the user prompt
`"Based on the following documents:\n{content}\nAnswer the query: {query}"`,
and the orchestrator's sampling parameters. -/
theorem c8_prompt_shape (fs : FS) (net : Payload → HttpOutcome)
    (rag : SimpleRAG) (query content : String) (titles : List String)
    (h : rag.retrieve fs query = Except.ok (content, titles)) :
    content = concatTexts fs rag.processor.documents_dir titles ∧
    rag.generate_response net query content =
      handleResponse (net
        { model := rag.model,
          messages := [⟨"system", "You are a helpful assistant named DocumentFinder"⟩,
            ⟨"user", "Based on the following documents:\n" ++ content ++
              "\nAnswer the query: " ++ query⟩],
          temperature := rag.temperature, top_p := rag.top_p,
          max_tokens := rag.max_tokens, stream := false }) := by
  refine ⟨?_, rfl⟩
  unfold SimpleRAG.retrieve at h
  cases hemb : rag.embedder query with
  | error e =>
    rw [hemb] at h
    exact absurd h (by simp)
  | ok qe =>
    simp only [hemb] at h
    cases hs : rag.index.search qe rag.top_n with
    | error e =>
      simp only [hs] at h
      exact absurd h (by simp)
    | ok ts =>
      simp only [hs] at h
      cases hrc : readConcat fs rag.processor.documents_dir ts "" with
      | error e =>
        simp only [hrc] at h
        exact absurd h (by simp)
      | ok rc =>
        simp only [hrc, Except.ok.injEq, Prod.mk.injEq] at h
        obtain ⟨h1, h2⟩ := h
        rw [← h1, ← h2]
        exact (readConcat_ok fs rag.processor.documents_dir ts "" rc
          hrc).trans (String.empty_append _)

/-- C8 counterexample: with one retrieved document of text `"alpha"`, the
user prompt the code sends contains `"alpha\n\nAnswer"` (the loop's trailing
newline plus the template's own), while the claim's
"texts separated by newline" reading (`specSeparatedConcat`) predicts
`"alpha\nAnswer"` — a different string. -/
theorem c8_prompt_has_trailing_newline :
    SimpleRAG.retrieve oneDocFS ragDocs "q" =
      Except.ok ("alpha\n", ["a.txt"]) ∧
    (ragDocs.createPayload ("Based on the following documents:\n" ++
        "alpha\n" ++ "\nAnswer the query: " ++ "q")).messages =
      [⟨"system", "You are a helpful assistant named DocumentFinder"⟩,
       ⟨"user", "Based on the following documents:\nalpha\n\nAnswer the query: q"⟩] ∧
    ("Based on the following documents:\n" ++ "alpha\n" ++
        "\nAnswer the query: " ++ "q") ≠
      ("Based on the following documents:\n" ++ specSeparatedConcat ["alpha"] ++
        "\nAnswer the query: " ++ "q") := by
  exact ⟨rfl, rfl, by decide⟩

/-- C9: over a directory with at least one `.txt` file (and an embedder that
succeeds with dimension-`d` embeddings on each), `create_simple_rag`
produces an orchestrator whose DocumentSet title count equals the number of
processed `.txt` files and whose index holds exactly that many entries. -/
theorem c9_build_counts (fs : FS) (embedder : String → Except PyExc Emb)
    (dir key url tok model : String) (temp topp : ℚ) (maxtok d : ℕ)
    (hne : ∃ f ∈ fs dir, strEndsWith f.1 ".txt" = true)
    (hok : ∀ f ∈ fs dir, strEndsWith f.1 ".txt" = true →
      ∃ e, embedder f.2 = Except.ok e ∧ e.length = d) :
    ∃ rag, create_simple_rag fs embedder dir key url tok model temp topp
        maxtok = Except.ok (some rag) ∧
      rag.processor.document_titles.length =
        ((fs dir).filter (fun f => strEndsWith f.1 ".txt")).length ∧
      rag.index.collection.length =
        ((fs dir).filter (fun f => strEndsWith f.1 ".txt")).length := by
  obtain ⟨h1, h2, es, he, hlen, hall⟩ :=
    processFiles_ok d (fs dir) (DocumentProcessor.init dir embedder) hok
  have hpair : processFiles (fs dir) (DocumentProcessor.init dir embedder) =
      (none,
       (processFiles (fs dir) (DocumentProcessor.init dir embedder)).2) := by
    rw [← h1]
  have htitles : (processFiles (fs dir)
      (DocumentProcessor.init dir embedder)).2.document_titles =
      ((fs dir).filter (fun f => strEndsWith f.1 ".txt")).map Prod.fst :=
    h2.trans (List.nil_append _)
  have hembs : (processFiles (fs dir)
      (DocumentProcessor.init dir embedder)).2.document_embeddings = es :=
    he.trans (List.nil_append _)
  have hfne : ((fs dir).filter (fun f => strEndsWith f.1 ".txt")) ≠ [] := by
    obtain ⟨f, hf, hft⟩ := hne
    intro hnil
    have hmemf : f ∈ (fs dir).filter (fun f => strEndsWith f.1 ".txt") :=
      List.mem_filter.mpr ⟨hf, hft⟩
    rw [hnil] at hmemf
    exact absurd hmemf (List.not_mem_nil f)
  have hesne : es ≠ [] := by
    intro hnil
    rw [hnil] at hlen
    have hflen : ((fs dir).filter (fun f => strEndsWith f.1 ".txt")).length
        = 0 := by simpa using hlen.symm
    exact hfne (List.eq_nil_of_length_eq_zero hflen)
  have hie : (processFiles (fs dir)
      (DocumentProcessor.init dir embedder)).2.document_embeddings.isEmpty =
      false := by
    rw [hembs]
    cases es with
    | nil => exact absurd rfl hesne
    | cons e es' => rfl
  have hpair' : processFiles
      (fs (DocumentProcessor.init dir embedder).documents_dir)
      (DocumentProcessor.init dir embedder) =
      (none,
       (processFiles (fs dir) (DocumentProcessor.init dir embedder)).2) :=
    hpair
  have hpd : processDocuments fs (DocumentProcessor.init dir embedder) =
      (none,
       (processFiles (fs dir) (DocumentProcessor.init dir embedder)).2) := by
    unfold processDocuments
    rw [hpair']
    simp [hie]
  have hheadI : (processFiles (fs dir)
      (DocumentProcessor.init dir
        embedder)).2.document_embeddings.headI.length = d := by
    rw [hembs]
    obtain ⟨e0, es', rfl⟩ := List.exists_cons_of_ne_nil hesne
    exact hall e0 (List.mem_cons_self _ _)
  have hadd : (QdrantIndex.create ((processFiles (fs dir)
        (DocumentProcessor.init dir
          embedder)).2.document_embeddings.headI.length)).add_embeddings
      (processFiles (fs dir)
        (DocumentProcessor.init dir embedder)).2.document_embeddings
      (processFiles (fs dir)
        (DocumentProcessor.init dir embedder)).2.document_titles =
      Except.ok ⟨d, enumPoints 0 (es.zip
        (((fs dir).filter (fun f => strEndsWith f.1 ".txt")).map
          Prod.fst))⟩ := by
    rw [hheadI, hembs, htitles]
    exact add_embeddings_create d es _ hall
  refine ⟨{ embedder := embedder,
            processor := (processFiles (fs dir)
              (DocumentProcessor.init dir embedder)).2,
            index := ⟨d, enumPoints 0 (es.zip
              (((fs dir).filter (fun f => strEndsWith f.1 ".txt")).map
                Prod.fst))⟩,
            api_key := key, api_url := url, top_n := 3, model := "llama3.2",
            temperature := 1/10, top_p := 19/20, max_tokens := maxtok },
    ?_, ?_, ?_⟩
  · simp only [create_simple_rag, hpd, hadd]
  · rw [htitles]
    exact List.length_map _ _
  · show (enumPoints 0 (es.zip _)).length = _
    rw [length_enumPoints, List.length_zip, hlen, Nat.min_self]
    exact List.length_map _ _

/-- Witness for C9 over the one-file directory `docs` of `oneDocFS`. -/
theorem c9_build_counts_witness :
    ((∃ f ∈ oneDocFS "docs", strEndsWith f.1 ".txt" = true) ∧
     (∀ f ∈ oneDocFS "docs", strEndsWith f.1 ".txt" = true →
       ∃ e, okEmbedder f.2 = Except.ok e ∧ e.length = 1)) ∧
    (∃ rag, create_simple_rag oneDocFS okEmbedder "docs" "k" "u" "t"
        "llama3.2" (1/10) (19/20) 3000 = Except.ok (some rag) ∧
      rag.processor.document_titles.length =
        ((oneDocFS "docs").filter (fun f => strEndsWith f.1 ".txt")).length ∧
      rag.index.collection.length =
        ((oneDocFS "docs").filter (fun f => strEndsWith f.1 ".txt")).length) :=
  ⟨⟨⟨("a.txt", "alpha"), by decide, by decide⟩,
    fun f hf hft => ⟨[1], rfl, rfl⟩⟩,
   c9_build_counts oneDocFS okEmbedder "docs" "k" "u" "t" "llama3.2" (1/10)
     (19/20) 3000 1 ⟨("a.txt", "alpha"), by decide, by decide⟩
     (fun f hf hft => ⟨[1], rfl, rfl⟩)⟩

/-- C10: the processor's two lists satisfy the parallel-pairing invariant.
Construction starts them both empty; every `process_documents` call —
successful or aborted by an exception — only appends, pairwise: the appended
titles are `.txt` filenames of the processed listing, each aligned with the
embedding the embedder produced for that file's content, so equal lengths are
preserved. -/
theorem c10_parallel_lists_invariant (dir : String)
    (embedder : String → Except PyExc Emb) (fs : FS)
    (s : DocumentProcessor) :
    (DocumentProcessor.init dir embedder).document_titles = [] ∧
    (DocumentProcessor.init dir embedder).document_embeddings = [] ∧
    ∃ ps : List (String × Emb),
      (processDocuments fs s).2.document_titles =
        s.document_titles ++ ps.map Prod.fst ∧
      (processDocuments fs s).2.document_embeddings =
        s.document_embeddings ++ ps.map Prod.snd ∧
      (∀ p ∈ ps, strEndsWith p.1 ".txt" = true ∧
        ∃ c, (p.1, c) ∈ fs s.documents_dir ∧ s.embedder c = Except.ok p.2) ∧
      (s.document_titles.length = s.document_embeddings.length →
        (processDocuments fs s).2.document_titles.length =
          (processDocuments fs s).2.document_embeddings.length) := by
  refine ⟨rfl, rfl, ?_⟩
  obtain ⟨ps, ht, he, hmem⟩ := processFiles_decomp (fs s.documents_dir) s
  have hsnd := processDocuments_snd fs s
  refine ⟨ps, by rw [hsnd]; exact ht, by rw [hsnd]; exact he, hmem, ?_⟩
  intro hlen
  rw [hsnd, ht, he]
  simp [hlen]

/-- Witness for C10 at a concrete directory, embedder, filesystem and
processor state. -/
theorem c10_parallel_lists_invariant_witness :
    (DocumentProcessor.init "docs" okEmbedder).document_titles = [] ∧
    (DocumentProcessor.init "docs" okEmbedder).document_embeddings = [] ∧
    ∃ ps : List (String × Emb),
      (processDocuments oneDocFS
          (DocumentProcessor.init "docs" okEmbedder)).2.document_titles =
        (DocumentProcessor.init "docs" okEmbedder).document_titles ++
          ps.map Prod.fst ∧
      (processDocuments oneDocFS
          (DocumentProcessor.init "docs" okEmbedder)).2.document_embeddings =
        (DocumentProcessor.init "docs" okEmbedder).document_embeddings ++
          ps.map Prod.snd ∧
      (∀ p ∈ ps, strEndsWith p.1 ".txt" = true ∧
        ∃ c, (p.1, c) ∈ oneDocFS
            (DocumentProcessor.init "docs" okEmbedder).documents_dir ∧
          (DocumentProcessor.init "docs" okEmbedder).embedder c =
            Except.ok p.2) ∧
      ((DocumentProcessor.init "docs" okEmbedder).document_titles.length =
          (DocumentProcessor.init "docs" okEmbedder).document_embeddings.length →
        (processDocuments oneDocFS
            (DocumentProcessor.init "docs" okEmbedder)).2.document_titles.length =
          (processDocuments oneDocFS
            (DocumentProcessor.init "docs"
              okEmbedder)).2.document_embeddings.length) :=
  c10_parallel_lists_invariant "docs" okEmbedder oneDocFS
    (DocumentProcessor.init "docs" okEmbedder)

/-- Witness for C8 at the concrete Ready orchestrator `ragDocs` and query
`"q"`: retrieval succeeds with content `"alpha\n"`, which is the
newline-terminated concatenation, and the sent payload is as stated. -/
theorem c8_prompt_shape_witness :
    (SimpleRAG.retrieve oneDocFS ragDocs "q" =
      Except.ok ("alpha\n", ["a.txt"])) ∧
    ("alpha\n" = concatTexts oneDocFS ragDocs.processor.documents_dir
        ["a.txt"] ∧
     ragDocs.generate_response http500 "q" "alpha\n" =
       handleResponse (http500
         { model := ragDocs.model,
           messages := [⟨"system", "You are a helpful assistant named DocumentFinder"⟩,
             ⟨"user", "Based on the following documents:\n" ++ "alpha\n" ++
               "\nAnswer the query: " ++ "q"⟩],
           temperature := ragDocs.temperature, top_p := ragDocs.top_p,
           max_tokens := ragDocs.max_tokens, stream := false })) :=
  ⟨rfl, c8_prompt_shape oneDocFS http500 ragDocs "q" "alpha\n" ["a.txt"] rfl⟩
